import Mathlib

/-!
Verification of the method-stub synthesis core of this repository
(`internal/lsp/source/stub.go` and `internal/impl/impl.go`).

The development shallowly embeds the data model and the algorithms of the
core: the type-expression rewriter (`mightRemoveSelector`,
`mightRenameSelector`, `mightAddSelector` and the `astutil.Apply` walk that
drives them), the missing-method computation (`missingMethods`), the
added-import bookkeeping (`concreteType.addImport` in both files), the
request extraction from return statements (`getReturnIndex`,
`getRequestFromReturn`, `getImplementRequest`), the interface display name
(`getIfaceName`) and the per-diagnostic control flow of
`MethodStubActions`.  Collaborators that the specification declares out of
scope (the snapshot/parsed-file provider, template rendering, text-edit
diffing) are supplied as oracle functions in an environment record.
-/

/-- A Go package as seen through `types.Package` / the lsp `Package`
interface: an import path and a short name. -/
structure GoPackage where
  name : String
  path : String
deriving DecidableEq

/-- An `*ast.Ident` node.  `key` identifies the node in the type
information's `Uses` map (`none` for freshly synthesized identifiers,
which are never in `Uses`); `name` is the spelled identifier. -/
structure IdentNode where
  key : Option Nat
  name : String
deriving DecidableEq

/-- The AST of a type expression inside a method signature
(`*ast.FuncType` subtree): identifiers, qualified selectors `Q.N`
(`*ast.SelectorExpr` whose `Sel` is an identifier and whose `X` is an
arbitrary expression), pointers, and function types. -/
inductive TypeExpr where
  | ident (i : IdentNode)
  | selector (x : TypeExpr) (sel : IdentNode)
  | star (e : TypeExpr)
  | funcType (params : List TypeExpr) (results : List TypeExpr)

/-- A `types.Object`, restricted to the queries the rewriter performs:
`obj.Pkg()` (`pkg`), whether `obj.Type()` is a `*types.Named` and if so the
owning package of that named type's object (`named`), and whether the
object is a `*types.PkgName` and if so the imported package
(`pkgNameImport`).  `name` is `obj.Name()`. -/
structure TypesObj where
  name : String
  pkg : Option GoPackage
  named : Option (Option GoPackage)
  pkgNameImport : Option GoPackage
deriving DecidableEq

/-- The `Uses` map of a package's type information, keyed by identifier
node. -/
def lookupUses (uses : Nat → Option TypesObj) (i : IdentNode) : Option TypesObj :=
  i.key.bind uses

/-- An `*ast.ImportSpec` of the destination file: optional alias and path
(already unquoted). -/
structure ImportSpecNode where
  name : Option String
  path : String
deriving DecidableEq

/-- stub.go `isIgnoredImport`: blank and dot imports are never usable
bindings. -/
def isIgnoredImport (imp : ImportSpecNode) : Bool :=
  match imp.name with
  | some n => n = "." || n = "_"
  | none => false

/-- An import queued for addition to the concrete file (`addedImport` in
stub.go, `AddedImport` in impl.go).  A non-empty `Name` is a required
alias. -/
structure AddedImport where
  Name : String
  Path : String
deriving DecidableEq

/-- A method signature compared nominally, standing in for
`*types.Signature` under `types.Identical`: parameter and result type
lists. -/
structure GoSig where
  params : List String
  results : List String
deriving DecidableEq

/-- The destination type (`concreteType` in stub.go): its package, the
imports of its defining file, its value- and pointer-method sets (lookup
by method name, returning the method's signature), and the pending
added-import list. -/
structure concreteType where
  pkg : GoPackage
  fileImports : List ImportSpecNode
  tms : String → Option GoSig
  pms : String → Option GoSig
  addedImports : List AddedImport

/-- stub.go `concreteType.doesNotHaveMethod`: neither method set has the
name. -/
def concreteType.doesNotHaveMethod (ct : concreteType) (name : String) : Bool :=
  (ct.tms name).isNone && (ct.pms name).isNone

/-- stub.go `concreteType.getMethodSelection`: the value-method-set lookup
if it succeeds, else the pointer-method-set lookup. -/
def concreteType.getMethodSelection (ct : concreteType) (name : String) : Option GoSig :=
  match ct.tms name with
  | some s => some s
  | none => ct.pms name

/-- stub.go `concreteType.addImport` (lines 637-644): scan the pending
list for an entry with the same name and path and return unchanged when
found, otherwise append. -/
def concreteType.addImport (ct : concreteType) (name path : String) : concreteType :=
  if ct.addedImports.any (fun imp => imp.Name = name && imp.Path = path) then ct
  else { ct with addedImports := ct.addedImports ++ [⟨name, path⟩] }

/-- impl.go's `concreteType`, reduced to the field its `addImport`
touches. -/
structure implConcreteType where
  addedImports : List AddedImport
deriving DecidableEq

/-- impl.go `concreteType.addImport` (lines 320-322): unconditional
append of the new entry. -/
def implConcreteType.addImport (ct : implConcreteType) (name path : String) : implConcreteType :=
  { ct with addedImports := ct.addedImports ++ [⟨name, path⟩] }

/-- The loop over `ct.file.Imports` shared by `mightRenameSelector` and
`mightAddSelector`: the first non-blank, non-dot import of the given
path. -/
def findFileImport (imports : List ImportSpecNode) (path : String) : Option ImportSpecNode :=
  imports.find? (fun imp => imp.path = path && !isIgnoredImport imp)

/-- stub.go `mightRemoveSelector` (lines 198-210), reduced to its
replacement condition: the member `sel` of the selector resolves in the
interface file's type information to an object whose package is the
concrete type's package.  (The Go function always returns `false` to the
walk; its effect is the `c.Replace(sel.Sel)` call, which fires exactly
when this predicate holds.) -/
def mightRemoveSelector (uses : Nat → Option TypesObj) (sel : IdentNode) (implPath : String) : Bool :=
  match lookupUses uses sel with
  | none => false
  | some obj =>
    match obj.pkg with
    | none => false
    | some p => p.path = implPath

/-- stub.go `mightRenameSelector` (lines 216-265): when the qualifier `x`
is an identifier resolving to a `*types.PkgName`, either rewrite the
qualifier to the destination file's local alias for the imported package
(explicit alias if present, else the package's short name), or — when the
destination file has no usable import of it and it is not the concrete
type's own package — queue an added import, preserving a rename made in
the interface file.  Returns the (possibly rewritten) selector and the
updated concrete-type state. -/
def mightRenameSelector (uses : Nat → Option TypesObj) (x : TypeExpr) (sel : IdentNode)
    (ct : concreteType) : TypeExpr × concreteType :=
  match x with
  | .ident qid =>
    match lookupUses uses qid with
    | none => (.selector x sel, ct)
    | some obj =>
      match obj.pkgNameImport with
      | none => (.selector x sel, ct)
      | some pkg =>
        match findFileImport ct.fileImports pkg.path with
        | some imp =>
          let importName :=
            match imp.name with
            | some n => if n ≠ pkg.name then n else pkg.name
            | none => pkg.name
          (.selector (.ident ⟨none, importName⟩) sel, ct)
        | none =>
          if pkg.path = ct.pkg.path then (.selector x sel, ct)
          else
            let importName := if obj.name ≠ pkg.name then obj.name else ""
            (.selector x sel, ct.addImport importName pkg.path)
  | _ => (.selector x sel, ct)

/-- The `astutil.Apply` callback on a `*ast.SelectorExpr` node
(stub.go lines 86-90): `mightRenameSelector` runs first (possibly
rewriting the qualifier or queueing an import), `mightRemoveSelector`
runs second and, when its condition holds, replaces the whole node with
the bare member identifier; the cursor keeps the last replacement. -/
def rewriteSelector (uses : Nat → Option TypesObj) (x : TypeExpr) (sel : IdentNode)
    (ct : concreteType) : TypeExpr × concreteType :=
  let renamed := mightRenameSelector uses x sel ct
  if mightRemoveSelector uses sel ct.pkg.path then (.ident sel, renamed.2)
  else renamed

/-- stub.go `mightAddSelector` (lines 272-318): a bare identifier that
resolves to a named type is qualified with the destination file's alias
for the type's owning package (defaulting to the package short name), and
when the destination file lacks a usable import of that package and the
package is not the destination itself, an import with no required alias
is queued.  The rewrite fires when the owning package is the interface's
package or a third package (dot-import), and never for the destination's
own types. -/
def mightAddSelector (uses : Nat → Option TypesObj) (ifacePkgPath : String)
    (i : IdentNode) (ct : concreteType) : TypeExpr × concreteType :=
  match lookupUses uses i with
  | none => (.ident i, ct)
  | some obj =>
    match obj.named with
    | none => (.ident i, ct)
    | some ownerPkg =>
      match ownerPkg with
      | none => (.ident i, ct)
      | some pkg =>
        let found := findFileImport ct.fileImports pkg.path
        let pkgName :=
          match found with
          | some imp =>
            match imp.name with
            | some n => n
            | none => pkg.name
          | none => pkg.name
        let missingImport := found.isNone
        let isNotImportingDestination := pkg.path ≠ ct.pkg.path
        let ct1 :=
          if missingImport && isNotImportingDestination then ct.addImport "" pkg.path
          else ct
        let isLocalDeclaration := pkg.path = ifacePkgPath && pkg.path ≠ ct.pkg.path
        let isDotImport := pkg.path ≠ ifacePkgPath && pkg.path ≠ ct.pkg.path
        if isLocalDeclaration || isDotImport then
          (.selector (.ident ⟨none, pkgName⟩) i, ct1)
        else (.ident i, ct1)

mutual

/-- The `astutil.Apply` walk over a cloned signature subtree
(stub.go lines 85-97): selectors and identifiers are handed to the
rewrite callbacks (which stop the descent), all other nodes are
traversed in field order.  `miUses` is the type information of the file
the signature came from (used by the selector callbacks), `irUses` and
`irPkgPath` are the type information and path of the request's interface
package (used by `mightAddSelector`). -/
def applyRewrite (miUses irUses : Nat → Option TypesObj) (irPkgPath : String) :
    TypeExpr → concreteType → TypeExpr × concreteType
  | .selector x sel, ct => rewriteSelector miUses x sel ct
  | .ident i, ct => mightAddSelector irUses irPkgPath i ct
  | .star e, ct =>
    let r := applyRewrite miUses irUses irPkgPath e ct
    (.star r.1, r.2)
  | .funcType ps rs, ct =>
    let rp := applyRewriteList miUses irUses irPkgPath ps ct
    let rr := applyRewriteList miUses irUses irPkgPath rs rp.2
    (.funcType rp.1 rr.1, rr.2)

/-- Walk each element of a node list in order, threading the
concrete-type state. -/
def applyRewriteList (miUses irUses : Nat → Option TypesObj) (irPkgPath : String) :
    List TypeExpr → concreteType → List TypeExpr × concreteType
  | [], ct => ([], ct)
  | e :: es, ct =>
    let r := applyRewrite miUses irUses irPkgPath e ct
    let rest := applyRewriteList miUses irUses irPkgPath es r.2
    (r.1 :: rest.1, rest.2)

end

/-- An interface method: name and (nominal) signature. -/
structure IfaceMethod where
  name : String
  sig : GoSig
deriving DecidableEq

mutual

/-- An interface object together with everything `missingMethods`
consults: its name, its owning package's path, its defining file as seen
by `getFile` (`none` when the `*ast.File` cannot be located), its
embedded interfaces and its explicit methods.  The model represents
interface objects only; the `Underlying().(*types.Interface)` assertion
of the source is satisfied by construction. -/
inductive IfaceTree where
  | node (name : String) (pkgPath : String) (file : Option Nat)
      (embeds : EmbedList) (methods : List IfaceMethod)

/-- The embedded interfaces of an interface, in source order.  `importOk`
records whether `ifacePkg.GetImport` succeeds for the embedded
interface's package (consulted only when that package differs from the
parent's). -/
inductive EmbedList where
  | enil
  | econs (importOk : Bool) (t : IfaceTree) (rest : EmbedList)

end

/-- The owning package path of an interface node. -/
def IfaceTree.pkgPathOf : IfaceTree → String
  | .node _ p _ _ _ => p

/-- stub.go `missingInterface`: one per-interface entry of the result,
with the interface's package path, its defining file and its missing
methods. -/
structure missingInterface where
  pkgPath : String
  fileId : Nat
  missing : List IfaceMethod
deriving DecidableEq

/-- The errors `missingMethods` can return: a failed
`ifacePkg.GetImport` for an embedded interface's package, a missing
`*ast.File`, or a signature mismatch carrying the method name and the
`have`/`want` signatures (stub.go `mismatchError`). -/
inductive MMError where
  | importError (path : String)
  | fileError (name : String)
  | mismatch (name : String) (haveSig : GoSig) (wantSig : GoSig)
deriving DecidableEq

/-- The recording step of the explicit-method loop of `missingMethods`
(stub.go lines 377-382): record the method as missing when the concrete
type has no method of that name and the name is not yet in the visited
set, marking the name visited; returns the recorded methods (at most
one) and the updated visited set. -/
def recordStep (ct : concreteType) (m : IfaceMethod) (v : List String) :
    List IfaceMethod × List String :=
  if ct.doesNotHaveMethod m.name then
    if m.name ∈ v then (([] : List IfaceMethod), v) else ([m], v ++ [m.name])
  else ([], v)

/-- The explicit-method loop of `missingMethods` (stub.go lines
375-394): for each method in order, apply the recording step, then, when
the concrete type does have a method of this name, fail with a mismatch
error unless the signatures are identical, else continue with the next
method. -/
def missingOwn (ct : concreteType) : List IfaceMethod → List String →
    Except MMError (List IfaceMethod × List String)
  | [], v => .ok ([], v)
  | m :: rest, v =>
    match ct.getMethodSelection m.name with
    | some implSig =>
      if implSig = m.sig then
        match missingOwn ct rest (recordStep ct m v).2 with
        | .error e => .error e
        | .ok (out, v2) => .ok ((recordStep ct m v).1 ++ out, v2)
      else .error (.mismatch m.name implSig m.sig)
    | none =>
      match missingOwn ct rest (recordStep ct m v).2 with
      | .error e => .error e
      | .ok (out, v2) => .ok ((recordStep ct m v).1 ++ out, v2)

mutual

/-- stub.go `missingMethods` (lines 341-399): recurse into the embedded
interfaces first (resolving each embedded interface's package through the
parent's import lookup when it differs, and failing when that lookup
fails), locate the current interface's defining file, process the
explicit methods against the concrete type's method sets, and append this
interface's entry exactly when it has at least one missing method.  The
visited-name set is threaded through the whole recursion. -/
def missingMethods (ct : concreteType) : IfaceTree → List String →
    Except MMError (List missingInterface × List String)
  | .node nm pkgPath file embeds methods, visited =>
    match missingEmbeds ct pkgPath embeds visited with
    | .error e => .error e
    | .ok (embMissing, v1) =>
      match file with
      | none => .error (.fileError nm)
      | some fid =>
        match missingOwn ct methods v1 with
        | .error e => .error e
        | .ok (own, v2) =>
          .ok ((if own.length > 0 then embMissing ++ [⟨pkgPath, fid, own⟩] else embMissing), v2)

/-- The embedded-interface loop of `missingMethods` (stub.go lines
347-362): resolve and recurse in order, aggregating results and
threading the visited set. -/
def missingEmbeds (ct : concreteType) (parentPath : String) : EmbedList → List String →
    Except MMError (List missingInterface × List String)
  | .enil, v => .ok ([], v)
  | .econs impOk t rest, v =>
    if t.pkgPathOf ≠ parentPath && !impOk then .error (.importError t.pkgPathOf)
    else
      match missingMethods ct t v with
      | .error e => .error e
      | .ok (m1, v1) =>
        match missingEmbeds ct parentPath rest v1 with
        | .error e => .error e
        | .ok (m2, v2) => .ok (m1 ++ m2, v2)

end

/-- The method names recorded in a `missingMethods` result, in order. -/
def missingNames : List missingInterface → List String
  | [] => []
  | mi :: rest => mi.missing.map (fun m => m.name) ++ missingNames rest

/-- A protocol diagnostic, reduced to the fields the core reads. -/
structure Diagnostic where
  source : String
  message : String
deriving DecidableEq

/-- `strings.Contains`. -/
def strContains (s sub : String) : Bool :=
  decide (List.IsInfix sub.data s.data)

/-- stub.go `isMissingMethodErr`: a compiler diagnostic whose message
contains "missing method". -/
def isMissingMethodErr (d : Diagnostic) : Bool :=
  d.source = "compiler" && strContains d.message "missing method"

/-- stub.go `isConversionErr`: a compiler diagnostic whose message starts
with "cannot convert". -/
def isConversionErr (d : Diagnostic) : Bool :=
  d.source = "compiler" && d.message.startsWith "cannot convert"

/-- stub.go `stubRequest`: the interface and concrete type objects with
their packages (objects reduced to their names) and the pointer-receiver
flag. -/
structure stubRequest where
  ifacePkg : GoPackage
  ifaceObjName : String
  concretePkg : GoPackage
  concreteObjName : String
  pointer : Bool
deriving DecidableEq

/-- stub.go `getIfaceName` (lines 175-180): the bare interface name when
the parsed file's package path equals the interface package's path,
otherwise the interface package's short name, a dot, and the interface
name. -/
def getIfaceName (pkg ifacePkg : GoPackage) (ifaceObjName : String) : String :=
  if pkg.path = ifacePkg.path then ifaceObjName
  else ifacePkg.name ++ "." ++ ifaceObjName

/-- The position range of one result expression of a return statement
(`r.Pos()` to `r.End()`). -/
structure ExprRange where
  posStart : Nat
  posEnd : Nat
deriving DecidableEq

/-- A node on the `PathEnclosingInterval` path, reduced to the shapes
`getImplementRequest` tests for: a `*ast.ValueSpec` (identified by a
key), a `*ast.ReturnStmt` (with the ranges of its result expressions),
or anything else. -/
inductive PathNode where
  | valueSpec (id : Nat)
  | returnStmt (results : List ExprRange)
  | otherNode
deriving DecidableEq

/-- stub.go `isVariableDeclaration`: the first `*ast.ValueSpec` on the
path. -/
def isVariableDeclaration : List PathNode → Option Nat
  | [] => none
  | .valueSpec i :: _ => some i
  | _ :: rest => isVariableDeclaration rest

/-- stub.go `isReturnStatement`: the first `*ast.ReturnStmt` on the
path. -/
def isReturnStatement : List PathNode → Option (List ExprRange)
  | [] => none
  | .returnStmt rs :: _ => some rs
  | _ :: rest => isReturnStatement rest


/-- stub.go `getReturnIndex` (lines 524-531): the index of the first
result expression whose range covers the position, or an error when the
position lies outside the bounds of every result expression. -/
def getReturnIndexFrom : List ExprRange → Nat → Nat → Except String Nat
  | [], _, _ => .error "pos not within return statement bounds"
  | r :: rest, pos, idx =>
    if pos ≥ r.posStart && pos ≤ r.posEnd then .ok idx
    else getReturnIndexFrom rest pos (idx + 1)

/-- stub.go `getReturnIndex`, starting the scan at index zero. -/
def getReturnIndex (results : List ExprRange) (pos : Nat) : Except String Nat :=
  getReturnIndexFrom results pos 0

/-- stub.go `getRequestFromReturn` (lines 463-522): determine the covered
result position, then recover the concrete and interface objects.  The
processing after the index lookup (scanning the result expression for a
type-name identifier, the enclosing function's corresponding declared
result type, and the package resolutions; lines 466-521) is supplied by
the oracle `afterIndex`. -/
def getRequestFromReturn (afterIndex : Nat → Except String (Option stubRequest))
    (pos : Nat) (rs : List ExprRange) : Except String (Option stubRequest) :=
  match getReturnIndex rs pos with
  | .error e => .error e
  | .ok idx => afterIndex idx

/-- stub.go `getImplementRequest` (lines 442-451): try the value-binding
form first, then the return form.  In the return form the error of
`getRequestFromReturn` is dropped (`ir, _ := ...`) and only the request
pointer is returned.  `fromVS` is the oracle for `fromValueSpec` (lines
533-603). -/
def getImplementRequest (fromVS : Nat → Nat → Option stubRequest)
    (afterIndex : Nat → Except String (Option stubRequest))
    (path : List PathNode) (pos : Nat) : Option stubRequest :=
  match isVariableDeclaration path with
  | some vsId => fromVS vsId pos
  | none =>
    match isReturnStatement path with
    | some rs =>
      match getRequestFromReturn afterIndex pos rs with
      | .ok ir => ir
      | .error _ => none
    | none => none

/-- A code action, reduced to the fields the claims mention. -/
structure CodeAction where
  title : String
  kind : String
  diagnostics : List Diagnostic
deriving DecidableEq

/-- The error returned by `MethodStubActions`: either a wrapped
collaborator/formatting error or a wrapped `missingMethods` error
(`fmt.Errorf("missingMethods: %w", err)` preserves the wrapped error). -/
inductive StubErr where
  | external (msg : String)
  | mm (e : MMError)
deriving DecidableEq

/-- The environment of one `MethodStubActions` call: the collaborators
the specification places out of scope, as oracles.  `parsedFile` models
`GetParsedFile` (returning the file's package), `nodesOf` models
`getNodes`, `fromVS` and `afterIndex` feed `getImplementRequest`,
`concreteFile` models `getFile` on the concrete object, `ctOf` and
`ifaceOf` give the concrete-type state and interface object of a
request, and `buildEdits` models the template rendering, reparse and
text-edit computation (stub.go lines 77-152). -/
structure StubEnv where
  parsedFile : Diagnostic → Except String GoPackage
  nodesOf : Diagnostic → Except String (List PathNode × Nat)
  fromVS : Nat → Nat → Option stubRequest
  afterIndex : Nat → Except String (Option stubRequest)
  concreteFile : stubRequest → Except String Unit
  ctOf : stubRequest → concreteType
  ifaceOf : stubRequest → IfaceTree
  buildEdits : Diagnostic → stubRequest → Except String Unit

/-- The diagnostic loop of `MethodStubActions` (stub.go lines 43-171)
with its accumulated action list: skip diagnostics that match neither
message pattern, skip diagnostics that yield no request, propagate
collaborator and `missingMethods` errors, return an empty result
immediately when the missing set is empty, and otherwise append a
quick-fix action titled after the interface display name. -/
def msaLoop (env : StubEnv) : List Diagnostic → List CodeAction →
    Except StubErr (List CodeAction)
  | [], actions => .ok actions
  | d :: rest, actions =>
    if !(isMissingMethodErr d || isConversionErr d) then msaLoop env rest actions
    else
      match env.parsedFile d with
      | .error e => .error (.external ("GetParsedFile: " ++ e))
      | .ok pkg =>
        match env.nodesOf d with
        | .error e => .error (.external ("getNodes: " ++ e))
        | .ok (nodes, pos) =>
          match getImplementRequest env.fromVS env.afterIndex nodes pos with
          | none => msaLoop env rest actions
          | some ir =>
            match env.concreteFile ir with
            | .error e => .error (.external ("getFile(concrete): " ++ e))
            | .ok _ =>
              match missingMethods (env.ctOf ir) (env.ifaceOf ir) [] with
              | .error e => .error (.mm e)
              | .ok (missing, _) =>
                if missing.length = 0 then .ok []
                else
                  match env.buildEdits d ir with
                  | .error e => .error (.external e)
                  | .ok _ =>
                    msaLoop env rest (actions ++
                      [{ title := "Implement " ++ getIfaceName pkg ir.ifacePkg ir.ifaceObjName,
                         kind := "quickfix",
                         diagnostics := [d] }])

/-- stub.go `MethodStubActions` (lines 41-173): run the diagnostic loop
with an empty initial action list. -/
def MethodStubActions (env : StubEnv) (diagnostics : List Diagnostic) :
    Except StubErr (List CodeAction) :=
  msaLoop env diagnostics []

/-! ### Theorems about the signature rewriter -/

/-- C1: for every missing-method signature being rewritten, whenever the
walk encounters a qualified selector `Q.N` whose member `N` resolves (in
the interface file's type information) to a type object owned by the
concrete type's package, the rewriter replaces the selector node with the
bare identifier `N`, so the emitted stub never spells such a type as
`⟨T-pkg⟩.N`. -/
theorem claimC1_self_unqualification
    (miUses irUses : Nat → Option TypesObj) (irPkgPath : String)
    (x : TypeExpr) (sel : IdentNode) (ct : concreteType)
    (obj : TypesObj) (p : GoPackage)
    (h1 : lookupUses miUses sel = some obj)
    (h2 : obj.pkg = some p)
    (h3 : p.path = ct.pkg.path) :
    (applyRewrite miUses irUses irPkgPath (.selector x sel) ct).1 = .ident sel := by
  have hrem : mightRemoveSelector miUses sel ct.pkg.path = true := by
    simp [mightRemoveSelector, h1, h2, h3]
  simp [applyRewrite, rewriteSelector, hrem]

/-- Concrete packages used by the witnesses below. -/
def pkgT : GoPackage := ⟨"t", "example.com/t"⟩

def pkgIfc : GoPackage := ⟨"ifc", "example.com/ifc"⟩

def pkgModels : GoPackage := ⟨"models", "example.com/models"⟩

def pkgTime : GoPackage := ⟨"time", "time"⟩

/-- A destination type in `pkgT` with no imports, no methods and no
pending added imports. -/
def ctBase : concreteType := ⟨pkgT, [], fun _ => none, fun _ => none, []⟩

/-- Type information for a selector `t.N` whose member is owned by the
destination package `pkgT`. -/
def usesSelfQual : Nat → Option TypesObj := fun k =>
  if k = 0 then some ⟨"t", none, none, some pkgT⟩
  else if k = 1 then some ⟨"N", some pkgT, some (some pkgT), none⟩
  else none

theorem claimC1_self_unqualification_witness :
    (applyRewrite usesSelfQual (fun _ => none) pkgIfc.path
      (.selector (.ident ⟨some 0, "t"⟩) ⟨some 1, "N"⟩) ctBase).1 = .ident ⟨some 1, "N"⟩ :=
  claimC1_self_unqualification usesSelfQual (fun _ => none) pkgIfc.path
    (.ident ⟨some 0, "t"⟩) ⟨some 1, "N"⟩ ctBase
    ⟨"N", some pkgT, some (some pkgT), none⟩ pkgT rfl rfl rfl

/-- C2: for every missing-method signature containing a selector `Q.N`
whose type's owning package `P` is already imported by the concrete file
under a non-blank, non-dot import with an explicit alias `A`, the
rewritten stub spells the reference `A.N` (the destination file's alias),
and no new import of `P` is queued in the added-imports list. -/
theorem claimC2_alias_honouring
    (miUses irUses : Nat → Option TypesObj) (irPkgPath : String)
    (qid sel : IdentNode) (ct : concreteType)
    (qobj selObj : TypesObj) (P : GoPackage) (imp : ImportSpecNode) (A : String)
    (hq : lookupUses miUses qid = some qobj)
    (hpn : qobj.pkgNameImport = some P)
    (himp : findFileImport ct.fileImports P.path = some imp)
    (hA : imp.name = some A)
    (hsel : lookupUses miUses sel = some selObj)
    (hselPkg : selObj.pkg = some P)
    (hne : P.path ≠ ct.pkg.path) :
    applyRewrite miUses irUses irPkgPath (.selector (.ident qid) sel) ct
      = (.selector (.ident ⟨none, A⟩) sel, ct) := by
  have hrem : mightRemoveSelector miUses sel ct.pkg.path = false := by
    simp [mightRemoveSelector, hsel, hselPkg, hne]
  have hname : (if A ≠ P.name then A else P.name) = A := by
    by_cases hAn : A = P.name
    · simp [hAn]
    · simp [hAn]
  simp [applyRewrite, rewriteSelector, hrem, mightRenameSelector, hq, hpn, himp, hA, hname]

/-- A destination type in `pkgT` whose file imports
`"example.com/models"` under the explicit alias `m`. -/
def ctAliased : concreteType :=
  ⟨pkgT, [⟨some "m", "example.com/models"⟩], fun _ => none, fun _ => none, []⟩

/-- Type information for a selector `models.User` in the interface
file. -/
def usesModels : Nat → Option TypesObj := fun k =>
  if k = 0 then some ⟨"models", none, none, some pkgModels⟩
  else if k = 1 then some ⟨"User", some pkgModels, some (some pkgModels), none⟩
  else none

theorem claimC2_alias_honouring_witness :
    applyRewrite usesModels (fun _ => none) pkgIfc.path
      (.selector (.ident ⟨some 0, "models"⟩) ⟨some 1, "User"⟩) ctAliased
      = (.selector (.ident ⟨none, "m"⟩) ⟨some 1, "User"⟩, ctAliased) :=
  claimC2_alias_honouring usesModels (fun _ => none) pkgIfc.path
    ⟨some 0, "models"⟩ ⟨some 1, "User"⟩ ctAliased
    ⟨"models", none, none, some pkgModels⟩
    ⟨"User", some pkgModels, some (some pkgModels), none⟩
    pkgModels ⟨some "m", "example.com/models"⟩ "m"
    rfl rfl rfl rfl rfl rfl (by decide)

/-- C3: for every bare identifier `N` in a missing-method signature that
resolves to a named type whose owning package differs from both the
interface's package and the concrete type's package (a type visible in
the interface file only via a dot-import), the rewriter replaces `N`
with the qualified form `⟨alias⟩.N`, and when the concrete file does not
already import that package under a non-blank, non-dot import, an import
of it with no required alias is queued first. -/
theorem claimC3_dot_import_expansion
    (miUses irUses : Nat → Option TypesObj) (irPkgPath : String)
    (i : IdentNode) (ct : concreteType) (obj : TypesObj) (P : GoPackage)
    (h1 : lookupUses irUses i = some obj)
    (h2 : obj.named = some (some P))
    (h3 : P.path ≠ irPkgPath)
    (h4 : P.path ≠ ct.pkg.path)
    (h5 : findFileImport ct.fileImports P.path = none) :
    applyRewrite miUses irUses irPkgPath (.ident i) ct
      = (.selector (.ident ⟨none, P.name⟩) i, ct.addImport "" P.path) := by
  simp [applyRewrite, mightAddSelector, h1, h2, h5, h3, h4]

/-- Type information for the bare identifier `Time`, a named type of the
`time` package reached through a dot-import of the interface file. -/
def usesDotTime : Nat → Option TypesObj := fun k =>
  if k = 2 then some ⟨"Time", some pkgTime, some (some pkgTime), none⟩ else none

theorem claimC3_dot_import_expansion_witness :
    applyRewrite (fun _ => none) usesDotTime pkgIfc.path (.ident ⟨some 2, "Time"⟩) ctBase
      = (.selector (.ident ⟨none, "time"⟩) ⟨some 2, "Time"⟩, ctBase.addImport "" "time") :=
  claimC3_dot_import_expansion (fun _ => none) usesDotTime pkgIfc.path
    ⟨some 2, "Time"⟩ ctBase ⟨"Time", some pkgTime, some (some pkgTime), none⟩ pkgTime
    rfl rfl (by decide) (by decide) rfl

/-! ### Theorems about the added-import bookkeeping -/

/-- C6 (amended): in stub.go, `concreteType.addImport` is idempotent —
queueing a `(name, path)` pair that is already present leaves the list
unchanged — and it preserves the invariant that the added-imports list
never contains two entries with the same `(name, path)` pair.  (In
impl.go, `addImport` appends unconditionally; see the counterexample.) -/
theorem claimC6_addImport_idempotent (ct : concreteType) (name path : String) :
    ((⟨name, path⟩ : AddedImport) ∈ ct.addedImports → ct.addImport name path = ct)
    ∧ (ct.addedImports.Nodup → ((ct.addImport name path).addedImports).Nodup) := by
  constructor
  · intro hmem
    unfold concreteType.addImport
    have hany : ct.addedImports.any (fun imp => imp.Name = name && imp.Path = path) = true := by
      rw [List.any_eq_true]
      exact ⟨⟨name, path⟩, hmem, by simp⟩
    simp [hany]
  · intro hnd
    unfold concreteType.addImport
    by_cases hany : ct.addedImports.any (fun imp => imp.Name = name && imp.Path = path) = true
    · simp [hany, hnd]
    · have hnotmem : (⟨name, path⟩ : AddedImport) ∉ ct.addedImports := by
        intro hmem
        exact hany (by rw [List.any_eq_true]; exact ⟨⟨name, path⟩, hmem, by simp⟩)
      simp only [hany]
      simp [List.Nodup, List.pairwise_append, hnd, hnotmem]
      refine ⟨hnd, ?_⟩
      intro a ha heq
      exact hnotmem (heq ▸ ha)

/-- A concrete added-imports state for the idempotence witness. -/
def ctWithModels : concreteType :=
  ⟨pkgT, [], fun _ => none, fun _ => none, [⟨"m", "example.com/models"⟩]⟩

theorem claimC6_addImport_idempotent_witness :
    (ctWithModels.addImport "m" "example.com/models" = ctWithModels)
    ∧ ((ctWithModels.addImport "m" "example.com/models").addedImports).Nodup :=
  ⟨(claimC6_addImport_idempotent ctWithModels "m" "example.com/models").1 (by decide),
   (claimC6_addImport_idempotent ctWithModels "m" "example.com/models").2 (by decide)⟩

/-- C6 (counterexample): impl.go's `concreteType.addImport` appends
unconditionally, so queueing a pair that is already present changes the
list and leaves it holding two entries with the same `(name, path)`
pair. -/
theorem claimC6_counterexample :
    (implConcreteType.addImport ⟨[⟨"", "example.com/p"⟩]⟩ "" "example.com/p").addedImports
      = [⟨"", "example.com/p"⟩, ⟨"", "example.com/p"⟩]
    ∧ ¬ ((implConcreteType.addImport ⟨[⟨"", "example.com/p"⟩]⟩ ""
          "example.com/p").addedImports).Nodup := by
  exact ⟨rfl, by decide⟩

/-! ### Theorems about the interface display name -/

/-- C9 (amended): the generated display name is the bare interface name
exactly when the package of the parsed file containing the diagnostic
has the same import path as the interface's package; otherwise it is the
interface package's short name, a dot, and the interface name.  (The
comparison is with the diagnostic file's package, not the concrete
type's package.) -/
theorem claimC9_display_name (pkg ifacePkg : GoPackage) (name : String) :
    getIfaceName pkg ifacePkg name = name ↔ pkg.path = ifacePkg.path := by
  unfold getIfaceName
  by_cases h : pkg.path = ifacePkg.path
  · simp [h]
  · simp only [h, if_false, iff_false]
    intro heq
    have hlen := congrArg String.length heq
    rw [String.length_append, String.length_append] at hlen
    have hdot : (".").length = 1 := rfl
    omega

theorem claimC9_display_name_witness :
    getIfaceName pkgModels pkgModels "I" = "I" :=
  (claimC9_display_name pkgModels pkgModels "I").mpr rfl

/-- The request of the counterexample: interface and concrete type both
live in `example.com/models`, while the diagnostic sits in a file of
`pkgT`. -/
def reqSamePkg : stubRequest := ⟨pkgModels, "I", pkgModels, "C", false⟩

/-- C9 (counterexample): the interface's package and the concrete type's
package are the same, yet the display name computed by `getIfaceName`
(which stub.go calls with the diagnostic file's package, here `pkgT`) is
the qualified form, not the bare name — so bare-iff-same-concrete-package
is false. -/
theorem claimC9_counterexample :
    reqSamePkg.ifacePkg.path = reqSamePkg.concretePkg.path
    ∧ getIfaceName pkgT reqSamePkg.ifacePkg reqSamePkg.ifaceObjName
        ≠ reqSamePkg.ifaceObjName := by
  exact ⟨rfl, by decide⟩

/-! ### Theorems about the request extraction from return statements -/

/-- The index scan never succeeds when the position is outside every
result expression's bounds. -/
theorem getReturnIndexFrom_out_of_range (rs : List ExprRange) (pos : Nat) :
    (∀ r ∈ rs, ¬(pos ≥ r.posStart ∧ pos ≤ r.posEnd)) →
    ∀ idx, getReturnIndexFrom rs pos idx = .error "pos not within return statement bounds" := by
  induction rs with
  | nil => intro _ idx; rfl
  | cons r rest ih =>
    intro h idx
    have hr : ¬(pos ≥ r.posStart ∧ pos ≤ r.posEnd) := h r (by simp)
    have hcond : (pos ≥ r.posStart && pos ≤ r.posEnd) = false := by
      rw [Bool.and_eq_false_iff]
      by_cases h1 : pos ≥ r.posStart
      · right
        simp only [decide_eq_false_iff_not]
        intro h2
        exact hr ⟨h1, h2⟩
      · left
        simp [h1]
    simp only [getReturnIndexFrom, hcond, Bool.false_eq_true, if_false]
    exact ih (fun r' hr' => h r' (by simp [hr'])) (idx + 1)

/-- A run of nodes that are neither value specs nor return statements
does not change the value-spec scan. -/
theorem isVariableDeclaration_skip (ns tail : List PathNode)
    (hns : ∀ n ∈ ns, n = PathNode.otherNode) :
    isVariableDeclaration (ns ++ tail) = isVariableDeclaration tail := by
  induction ns with
  | nil => rfl
  | cons n rest ih =>
    have hn := hns n (by simp)
    subst hn
    exact ih (fun n' hn' => hns n' (by simp [hn']))

/-- A run of nodes that are neither value specs nor return statements
does not change the return-statement scan. -/
theorem isReturnStatement_skip (ns tail : List PathNode)
    (hns : ∀ n ∈ ns, n = PathNode.otherNode) :
    isReturnStatement (ns ++ tail) = isReturnStatement tail := by
  induction ns with
  | nil => rfl
  | cons n rest ih =>
    have hn := hns n (by simp)
    subst hn
    exact ih (fun n' hn' => hns n' (by simp [hn']))

/-- C8 (amended): when the resolved diagnostic position lies outside the
bounds of every result expression of the enclosing return statement,
`getReturnIndex` reports the mismatched shape as an error and
`getRequestFromReturn` propagates it, but `getImplementRequest` discards
that error (`ir, _ := getRequestFromReturn(...)`) and yields no request,
so the caller sees the same silent "no request" outcome as for a
non-actionable diagnostic. -/
theorem claimC8_return_index_error_dropped
    (fromVS : Nat → Nat → Option stubRequest)
    (afterIndex : Nat → Except String (Option stubRequest))
    (ns : List PathNode) (rs : List ExprRange) (pos : Nat)
    (hns : ∀ n ∈ ns, n = PathNode.otherNode)
    (h : ∀ r ∈ rs, ¬(pos ≥ r.posStart ∧ pos ≤ r.posEnd)) :
    getRequestFromReturn afterIndex pos rs
      = .error "pos not within return statement bounds"
    ∧ getImplementRequest fromVS afterIndex (ns ++ [.returnStmt rs]) pos = none := by
  have herr : getRequestFromReturn afterIndex pos rs
      = .error "pos not within return statement bounds" := by
    unfold getRequestFromReturn getReturnIndex
    rw [getReturnIndexFrom_out_of_range rs pos h 0]
  refine ⟨herr, ?_⟩
  have hvd : isVariableDeclaration (ns ++ [.returnStmt rs]) = none :=
    isVariableDeclaration_skip ns [.returnStmt rs] hns
  have hrs : isReturnStatement (ns ++ [.returnStmt rs]) = some rs :=
    isReturnStatement_skip ns [.returnStmt rs] hns
  unfold getImplementRequest
  rw [hvd, hrs]
  simp [herr]

theorem claimC8_return_index_error_dropped_witness :
    (getRequestFromReturn (fun _ => .ok none) 5 [⟨10, 20⟩]
      = .error "pos not within return statement bounds")
    ∧ getImplementRequest (fun _ _ => none) (fun _ => .ok none)
        ([.otherNode] ++ [.returnStmt [⟨10, 20⟩]]) 5 = none :=
  claimC8_return_index_error_dropped (fun _ _ => none) (fun _ => .ok none)
    [.otherNode] [⟨10, 20⟩] 5 (by simp) (by decide)

/-- C8 (counterexample): at a concrete return statement whose single
result expression spans positions 10-20 and a diagnostic position 5, the
out-of-range condition is an error inside `getRequestFromReturn`, yet
`getImplementRequest` — the request extractor's boundary, which has no
error channel — returns the silent "no request" outcome, so the
condition is not surfaced to the caller. -/
theorem claimC8_counterexample :
    getRequestFromReturn (fun _ => .ok (some reqSamePkg)) 5 [⟨10, 20⟩]
      = .error "pos not within return statement bounds"
    ∧ getImplementRequest (fun _ _ => none) (fun _ => .ok (some reqSamePkg))
        [.returnStmt [⟨10, 20⟩]] 5 = none := by
  exact ⟨rfl, rfl⟩

/-! ### The visited-set invariant of the missing-method computation -/

/-- The relationship between the visited set before and after a
computation that records `names`: the final set extends the initial set
by exactly `names`, the recorded names are pairwise distinct, and none
of them was visited before. -/
def visitedSpec (v names vFinal : List String) : Prop :=
  vFinal = v ++ names ∧ names.Nodup ∧ ∀ n ∈ names, n ∉ v

/-- Sequencing two recording computations records the concatenation of
their names. -/
theorem visitedSpec_comp {v ns1 v1 ns2 v2 : List String}
    (h1 : visitedSpec v ns1 v1) (h2 : visitedSpec v1 ns2 v2) :
    visitedSpec v (ns1 ++ ns2) v2 := by
  obtain ⟨e1, nd1, f1⟩ := h1
  obtain ⟨e2, nd2, f2⟩ := h2
  subst e1
  subst e2
  refine ⟨by simp, ?_, ?_⟩
  · rw [List.nodup_append]
    refine ⟨nd1, nd2, ?_⟩
    intro a ha1 ha2
    exact f2 a ha2 (by simp [ha1])
  · intro n hn
    rcases List.mem_append.mp hn with hn1 | hn2
    · exact f1 n hn1
    · intro hv
      exact f2 n hn2 (by simp [hv])

/-- The recording step satisfies the visited-set contract. -/
theorem recordStep_visitedSpec (ct : concreteType) (m : IfaceMethod) (v : List String) :
    visitedSpec v ((recordStep ct m v).1.map (fun x => x.name)) (recordStep ct m v).2 := by
  unfold recordStep visitedSpec
  split
  · split
    · simp
    · rename_i hmem
      simp [hmem]
  · simp

/-- The explicit-method loop satisfies the visited-set contract. -/
theorem missingOwn_visited (ct : concreteType) :
    ∀ (ms : List IfaceMethod) (v : List String) (out : List IfaceMethod) (vF : List String),
    missingOwn ct ms v = .ok (out, vF) →
    visitedSpec v (out.map (fun x => x.name)) vF := by
  intro ms
  induction ms with
  | nil =>
    intro v out vF h
    simp only [missingOwn] at h
    obtain ⟨h1, h2⟩ := Prod.mk.injEq .. ▸ (Except.ok.injEq .. ▸ h :)
    · subst h1; subst h2
      exact ⟨by simp, by simp, by simp⟩
  | cons m rest ih =>
    intro v out vF h
    simp only [missingOwn] at h
    split at h
    · split at h
      · split at h
        · simp at h
        · rename_i hrec
          obtain ⟨h1, h2⟩ := Prod.mk.injEq .. ▸ (Except.ok.injEq .. ▸ h :)
          subst h1; subst h2
          have hstep := recordStep_visitedSpec ct m v
          have htail := ih _ _ _ hrec
          have hcomp := visitedSpec_comp hstep htail
          simpa [List.map_append] using hcomp
      · simp at h
    · split at h
      · simp at h
      · rename_i hrec
        obtain ⟨h1, h2⟩ := Prod.mk.injEq .. ▸ (Except.ok.injEq .. ▸ h :)
        subst h1; subst h2
        have hstep := recordStep_visitedSpec ct m v
        have htail := ih _ _ _ hrec
        have hcomp := visitedSpec_comp hstep htail
        simpa [List.map_append] using hcomp

/-- `missingNames` distributes over list append. -/
theorem missingNames_append (a b : List missingInterface) :
    missingNames (a ++ b) = missingNames a ++ missingNames b := by
  induction a with
  | nil => rfl
  | cons mi rest ih => simp [missingNames, ih]


/-- The defining equation of `missingMethods` on a node, stated once so
the proofs below can rewrite with it. -/
theorem missingMethods_node (ct : concreteType) (nm pkgPath : String) (file : Option Nat)
    (embeds : EmbedList) (methods : List IfaceMethod) (visited : List String) :
    missingMethods ct (.node nm pkgPath file embeds methods) visited
      = match missingEmbeds ct pkgPath embeds visited with
        | .error e => .error e
        | .ok (embMissing, v1) =>
          match file with
          | none => .error (.fileError nm)
          | some fid =>
            match missingOwn ct methods v1 with
            | .error e => .error e
            | .ok (own, v2) =>
              .ok ((if own.length > 0 then embMissing ++ [⟨pkgPath, fid, own⟩]
                    else embMissing), v2) := by
  simp only [missingMethods]

/-- The defining equation of `missingEmbeds` on a cons cell. -/
theorem missingEmbeds_econs (ct : concreteType) (parentPath : String) (impOk : Bool)
    (t : IfaceTree) (rest : EmbedList) (v : List String) :
    missingEmbeds ct parentPath (.econs impOk t rest) v
      = if t.pkgPathOf ≠ parentPath && !impOk then .error (.importError t.pkgPathOf)
        else
          match missingMethods ct t v with
          | .error e => .error e
          | .ok (m1, v1) =>
            match missingEmbeds ct parentPath rest v1 with
            | .error e => .error e
            | .ok (m2, v2) => .ok (m1 ++ m2, v2) := by
  simp only [missingEmbeds]

mutual

/-- `missingMethods` satisfies the visited-set contract: on success the
final visited set extends the initial one by exactly the names recorded
in the result, those names are pairwise distinct, and none of them was
visited before the call. -/
theorem missingMethods_visited (ct : concreteType) (t : IfaceTree) :
    ∀ (v : List String) (mis : List missingInterface) (vF : List String),
    missingMethods ct t v = .ok (mis, vF) →
    visitedSpec v (missingNames mis) vF := by
  cases t with
  | node nm pkgPath file embeds methods =>
    intro v mis vF h
    have hemb := missingEmbeds_visited ct pkgPath embeds
    rw [missingMethods_node] at h
    cases hembEq : missingEmbeds ct pkgPath embeds v with
    | error e => rw [hembEq] at h; simp at h
    | ok p =>
      obtain ⟨embMissing, v1⟩ := p
      simp only [hembEq] at h
      cases file with
      | none => simp at h
      | some fid =>
        cases hownEq : missingOwn ct methods v1 with
        | error e => simp only [hownEq] at h; simp at h
        | ok p2 =>
          obtain ⟨own, v2⟩ := p2
          simp only [hownEq] at h
          simp only [Except.ok.injEq, Prod.mk.injEq] at h
          obtain ⟨h1, h2⟩ := h
          subst h2
          have hA := hemb v embMissing v1 hembEq
          have hB := missingOwn_visited ct methods v1 own _ hownEq
          by_cases hlen : own.length > 0
          · rw [if_pos hlen] at h1
            subst h1
            have hC := visitedSpec_comp hA hB
            simpa [missingNames_append, missingNames] using hC
          · rw [if_neg hlen] at h1
            subst h1
            have hnil : own = [] := List.length_eq_zero.mp (by omega)
            subst hnil
            obtain ⟨e2, _, _⟩ := hB
            simp at e2
            rw [← e2] at hA
            exact hA

/-- The embedded-interface loop satisfies the visited-set contract. -/
theorem missingEmbeds_visited (ct : concreteType) (parentPath : String) (es : EmbedList) :
    ∀ (v : List String) (mis : List missingInterface) (vF : List String),
    missingEmbeds ct parentPath es v = .ok (mis, vF) →
    visitedSpec v (missingNames mis) vF := by
  cases es with
  | enil =>
    intro v mis vF h
    simp only [missingEmbeds, Except.ok.injEq, Prod.mk.injEq] at h
    obtain ⟨h1, h2⟩ := h
    subst h1; subst h2
    exact ⟨by simp [missingNames], by simp [missingNames], by simp [missingNames]⟩
  | econs impOk t rest =>
    intro v mis vF h
    have ht := missingMethods_visited ct t
    have hr := missingEmbeds_visited ct parentPath rest
    rw [missingEmbeds_econs] at h
    by_cases hcond : (t.pkgPathOf ≠ parentPath && !impOk) = true
    · rw [if_pos hcond] at h; simp at h
    · rw [if_neg hcond] at h
      cases hmm2 : missingMethods ct t v with
      | error e => rw [hmm2] at h; simp at h
      | ok p =>
        obtain ⟨m1, v1⟩ := p
        simp only [hmm2] at h
        cases hrest : missingEmbeds ct parentPath rest v1 with
        | error e => simp only [hrest] at h; simp at h
        | ok p2 =>
          obtain ⟨m2, v2⟩ := p2
          simp only [hrest] at h
          simp only [Except.ok.injEq, Prod.mk.injEq] at h
          obtain ⟨h1, h2⟩ := h
          subst h1; subst h2
          have hA := ht v m1 v1 hmm2
          have hB := hr v1 m2 _ hrest
          have hC := visitedSpec_comp hA hB
          simpa [missingNames_append] using hC

end

/-- Membership carried into the visited set by the recording step. -/
theorem recordStep_mem (ct : concreteType) (m : IfaceMethod) (v : List String)
    (h : ct.doesNotHaveMethod m.name = true) :
    m.name ∈ (recordStep ct m v).2 := by
  unfold recordStep
  rw [if_pos h]
  by_cases hv : m.name ∈ v
  · rw [if_pos hv]; exact hv
  · rw [if_neg hv]; simp

/-- Every method of the list that the concrete type lacks ends up in the
final visited set of the explicit-method loop. -/
theorem missingOwn_mem (ct : concreteType) :
    ∀ (ms : List IfaceMethod) (v : List String) (out : List IfaceMethod) (vF : List String),
    missingOwn ct ms v = .ok (out, vF) →
    ∀ m ∈ ms, ct.doesNotHaveMethod m.name = true → m.name ∈ vF := by
  intro ms
  induction ms with
  | nil =>
    intro v out vF h m hm
    simp at hm
  | cons m0 rest ih =>
    intro v out vF h m hm hdnh
    simp only [missingOwn] at h
    cases hsel : ct.getMethodSelection m0.name with
    | some implSig =>
      simp only [hsel] at h
      by_cases hiff : implSig = m0.sig
      · rw [if_pos hiff] at h
        cases hrec : missingOwn ct rest (recordStep ct m0 v).2 with
        | error e => simp only [hrec] at h; simp at h
        | ok p =>
          obtain ⟨out1, v2⟩ := p
          simp only [hrec] at h
          simp only [Except.ok.injEq, Prod.mk.injEq] at h
          obtain ⟨h1, h2⟩ := h
          subst h2
          rcases List.mem_cons.mp hm with hm0 | hmr
          · subst hm0
            have hmem1 := recordStep_mem ct m v hdnh
            obtain ⟨e2, _, _⟩ := missingOwn_visited ct rest _ out1 _ hrec
            rw [e2]
            exact List.mem_append.mpr (Or.inl hmem1)
          · exact ih _ _ _ hrec m hmr hdnh
      · rw [if_neg hiff] at h; simp at h
    | none =>
      simp only [hsel] at h
      cases hrec : missingOwn ct rest (recordStep ct m0 v).2 with
      | error e => simp only [hrec] at h; simp at h
      | ok p =>
        obtain ⟨out1, v2⟩ := p
        simp only [hrec] at h
        simp only [Except.ok.injEq, Prod.mk.injEq] at h
        obtain ⟨h1, h2⟩ := h
        subst h2
        rcases List.mem_cons.mp hm with hm0 | hmr
        · subst hm0
          have hmem1 := recordStep_mem ct m v hdnh
          obtain ⟨e2, _, _⟩ := missingOwn_visited ct rest _ out1 _ hrec
          rw [e2]
          exact List.mem_append.mpr (Or.inl hmem1)
        · exact ih _ _ _ hrec m hmr hdnh

mutual

/-- A method name occurring among an interface's explicit methods or,
transitively, among those of its embedded interfaces. -/
def methodInTree (nm : String) : IfaceTree → Bool
  | .node _ _ _ embeds methods =>
    methods.any (fun m => m.name = nm) || methodInEmbeds nm embeds

/-- `methodInTree` over an embedded-interface list. -/
def methodInEmbeds (nm : String) : EmbedList → Bool
  | .enil => false
  | .econs _ t rest => methodInTree nm t || methodInEmbeds nm rest

end

mutual

/-- Every name required somewhere in the interface tree that the
concrete type lacks ends up in the final visited set. -/
theorem missingMethods_mem (ct : concreteType) (t : IfaceTree) :
    ∀ (v : List String) (mis : List missingInterface) (vF : List String),
    missingMethods ct t v = .ok (mis, vF) →
    ∀ nm, ct.doesNotHaveMethod nm = true → methodInTree nm t = true → nm ∈ vF := by
  cases t with
  | node nm0 pkgPath file embeds methods =>
    intro v mis vF h nm hdnh hin
    have hembmem := missingEmbeds_mem ct pkgPath embeds
    rw [missingMethods_node] at h
    cases hembEq : missingEmbeds ct pkgPath embeds v with
    | error e => simp only [hembEq] at h; simp at h
    | ok p =>
      obtain ⟨embMissing, v1⟩ := p
      simp only [hembEq] at h
      cases file with
      | none => simp at h
      | some fid =>
        cases hownEq : missingOwn ct methods v1 with
        | error e => simp only [hownEq] at h; simp at h
        | ok p2 =>
          obtain ⟨own, v2⟩ := p2
          simp only [hownEq] at h
          simp only [Except.ok.injEq, Prod.mk.injEq] at h
          obtain ⟨h1, h2⟩ := h
          subst h2
          simp only [methodInTree] at hin
          rw [Bool.or_eq_true] at hin
          rcases hin with hinm | hine
          · rw [List.any_eq_true] at hinm
            obtain ⟨m, hm, hmn⟩ := hinm
            have hmn2 : m.name = nm := by simpa using hmn
            have hdnh2 : ct.doesNotHaveMethod m.name = true := by rw [hmn2]; exact hdnh
            have hmem := missingOwn_mem ct methods v1 own _ hownEq m hm hdnh2
            rw [← hmn2]
            exact hmem
          · have hmem1 : nm ∈ v1 := hembmem v embMissing v1 hembEq nm hdnh hine
            obtain ⟨e2, _, _⟩ := missingOwn_visited ct methods v1 own _ hownEq
            rw [e2]
            exact List.mem_append.mpr (Or.inl hmem1)

/-- Every name required somewhere in an embedded-interface list that the
concrete type lacks ends up in the final visited set. -/
theorem missingEmbeds_mem (ct : concreteType) (parentPath : String) (es : EmbedList) :
    ∀ (v : List String) (mis : List missingInterface) (vF : List String),
    missingEmbeds ct parentPath es v = .ok (mis, vF) →
    ∀ nm, ct.doesNotHaveMethod nm = true → methodInEmbeds nm es = true → nm ∈ vF := by
  cases es with
  | enil =>
    intro v mis vF h nm _ hin
    simp [methodInEmbeds] at hin
  | econs impOk t rest =>
    intro v mis vF h nm hdnh hin
    have ht := missingMethods_mem ct t
    have hr := missingEmbeds_mem ct parentPath rest
    rw [missingEmbeds_econs] at h
    by_cases hcond : (t.pkgPathOf ≠ parentPath && !impOk) = true
    · rw [if_pos hcond] at h; simp at h
    · rw [if_neg hcond] at h
      cases hmm2 : missingMethods ct t v with
      | error e => simp only [hmm2] at h; simp at h
      | ok p =>
        obtain ⟨m1, v1⟩ := p
        simp only [hmm2] at h
        cases hrest : missingEmbeds ct parentPath rest v1 with
        | error e => simp only [hrest] at h; simp at h
        | ok p2 =>
          obtain ⟨m2, v2⟩ := p2
          simp only [hrest] at h
          simp only [Except.ok.injEq, Prod.mk.injEq] at h
          obtain ⟨h1, h2⟩ := h
          subst h2
          simp only [methodInEmbeds] at hin
          rw [Bool.or_eq_true] at hin
          rcases hin with hint | hinr
          · have hmem1 : nm ∈ v1 := ht v m1 v1 hmm2 nm hdnh hint
            obtain ⟨e2, _, _⟩ := missingEmbeds_visited ct parentPath rest v1 m2 _ hrest
            rw [e2]
            exact List.mem_append.mpr (Or.inl hmem1)
          · exact hr v1 m2 _ hrest nm hdnh hinr

end

/-- C5: for every interface whose embedding graph requires the same
method name through two or more embedded interfaces (a diamond), the
aggregated missing-method result of one invocation contains that method
name exactly once, so exactly one stub is emitted: the visited-name set
threaded through the recursion prevents a second recording of an
already-emitted name. -/
theorem claimC5_diamond_dedup (ct : concreteType) (t : IfaceTree)
    (mis : List missingInterface) (vF : List String) (nm : String)
    (h : missingMethods ct t [] = .ok (mis, vF))
    (hdnh : ct.doesNotHaveMethod nm = true)
    (hin : methodInTree nm t = true) :
    (missingNames mis).count nm = 1 := by
  obtain ⟨e, nd, _⟩ := missingMethods_visited ct t [] mis vF h
  have hmem : nm ∈ vF := missingMethods_mem ct t [] mis vF h nm hdnh hin
  rw [e] at hmem
  simp only [List.nil_append] at hmem
  exact List.count_eq_one_of_mem nd hmem

/-- The empty signature used by the diamond witness. -/
def sigUnit : GoSig := ⟨[], []⟩

/-- `type A interface { F() }`. -/
def treeA : IfaceTree := .node "A" "example.com/ifc" (some 0) .enil [⟨"F", sigUnit⟩]

/-- `type B interface { A; F() }`. -/
def treeB : IfaceTree :=
  .node "B" "example.com/ifc" (some 1) (.econs true treeA .enil) [⟨"F", sigUnit⟩]

/-- `type I interface { A; B }`: the diamond requiring `F` twice. -/
def treeDiamond : IfaceTree :=
  .node "I" "example.com/ifc" (some 2) (.econs true treeA (.econs true treeB .enil)) []

theorem claimC5_diamond_dedup_witness :
    (missingNames [⟨"example.com/ifc", 0, [⟨"F", sigUnit⟩]⟩]).count "F" = 1 :=
  claimC5_diamond_dedup ctBase treeDiamond
    [⟨"example.com/ifc", 0, [⟨"F", sigUnit⟩]⟩] ["F"] "F" rfl rfl rfl

/-- When the methods before `m` have no signature mismatch and `m`'s
looked-up signature differs from the interface's, the explicit-method
loop fails with the mismatch error for `m`. -/
theorem missingOwn_mismatch (ct : concreteType) :
    ∀ (pre : List IfaceMethod) (m : IfaceMethod) (post : List IfaceMethod)
      (s : GoSig) (v : List String),
    (∀ m2 ∈ pre, ∀ s2, ct.getMethodSelection m2.name = some s2 → s2 = m2.sig) →
    ct.getMethodSelection m.name = some s → s ≠ m.sig →
    missingOwn ct (pre ++ m :: post) v = .error (.mismatch m.name s m.sig) := by
  intro pre
  induction pre with
  | nil =>
    intro m post s v hpre hs hne
    simp only [List.nil_append, missingOwn, hs]
    rw [if_neg hne]
  | cons m2 rest ih =>
    intro m post s v hpre hs hne
    simp only [List.cons_append, missingOwn]
    cases hsel : ct.getMethodSelection m2.name with
    | some s2 =>
      simp only [hsel]
      have hid : s2 = m2.sig := hpre m2 (by simp) s2 hsel
      rw [if_pos hid]
      simp only [List.append_eq]
      rw [ih m post s _ (fun m3 hm3 => hpre m3 (by simp [hm3])) hs hne]
    | none =>
      simp only [hsel, List.append_eq]
      rw [ih m post s _ (fun m3 hm3 => hpre m3 (by simp [hm3])) hs hne]

/-- C4: for every interface method whose name the concrete type already
has in its value- or pointer-method set, if the existing signature is
not identical to the interface's signature, the missing-method
computation returns a mismatch error carrying the method name, the
`have` signature and the `want` signature, and no patch or code action
is emitted for the request. -/
theorem claimC4_signature_mismatch
    (env : StubEnv) (d : Diagnostic) (pkg : GoPackage)
    (nodes : List PathNode) (pos : Nat) (ir : stubRequest)
    (ct : concreteType) (nm0 pkgPath : String) (fid : Nat)
    (pre post : List IfaceMethod) (m : IfaceMethod) (s : GoSig)
    (hd : (isMissingMethodErr d || isConversionErr d) = true)
    (hpf : env.parsedFile d = .ok pkg)
    (hn : env.nodesOf d = .ok (nodes, pos))
    (hir : getImplementRequest env.fromVS env.afterIndex nodes pos = some ir)
    (hcf : env.concreteFile ir = .ok ())
    (hct : env.ctOf ir = ct)
    (hif : env.ifaceOf ir = .node nm0 pkgPath (some fid) .enil (pre ++ m :: post))
    (hpre : ∀ m2 ∈ pre, ∀ s2, ct.getMethodSelection m2.name = some s2 → s2 = m2.sig)
    (hs : ct.getMethodSelection m.name = some s)
    (hne : s ≠ m.sig) :
    missingMethods ct (.node nm0 pkgPath (some fid) .enil (pre ++ m :: post)) []
      = .error (.mismatch m.name s m.sig)
    ∧ MethodStubActions env [d] = .error (.mm (.mismatch m.name s m.sig)) := by
  have hmm2 : missingMethods ct (.node nm0 pkgPath (some fid) .enil (pre ++ m :: post)) []
      = .error (.mismatch m.name s m.sig) := by
    rw [missingMethods_node]
    simp only [show missingEmbeds ct pkgPath .enil [] = .ok ([], []) from rfl]
    simp only [missingOwn_mismatch ct pre m post s [] hpre hs hne]
  refine ⟨hmm2, ?_⟩
  unfold MethodStubActions msaLoop
  simp only [hd, Bool.not_true, Bool.false_eq_true, if_false, hpf, hn, hir, hcf, hct, hif, hmm2]

/-- Signatures used by the pipeline witnesses. -/
def sigInt : GoSig := ⟨["int"], []⟩

def sigString : GoSig := ⟨["string"], []⟩

/-- The request wired through the pipeline witnesses: interface `I` in
`pkgIfc`, concrete type `C` in `pkgT`. -/
def reqIfcT : stubRequest := ⟨pkgIfc, "I", pkgT, "C", false⟩

/-- A concrete type whose `Do` has signature `func(string)`. -/
def ctDoString : concreteType :=
  ⟨pkgT, [], fun n => if n = "Do" then some sigString else none, fun _ => none, []⟩

/-- `type I interface { Do(int) }`. -/
def treeDoInt : IfaceTree := .node "I" "example.com/ifc" (some 0) .enil [⟨"Do", sigInt⟩]

/-- A compiler diagnostic matching the missing-method pattern. -/
def dMissing : Diagnostic := ⟨"compiler", "C does not implement I (missing method Do)"⟩

/-- The environment of the mismatch witness. -/
def envMismatch : StubEnv :=
  { parsedFile := fun _ => .ok pkgT
    nodesOf := fun _ => .ok ([.valueSpec 0], 0)
    fromVS := fun _ _ => some reqIfcT
    afterIndex := fun _ => .ok none
    concreteFile := fun _ => .ok ()
    ctOf := fun _ => ctDoString
    ifaceOf := fun _ => treeDoInt
    buildEdits := fun _ _ => .ok () }

theorem claimC4_signature_mismatch_witness :
    missingMethods ctDoString treeDoInt [] = .error (.mismatch "Do" sigString sigInt)
    ∧ MethodStubActions envMismatch [dMissing] = .error (.mm (.mismatch "Do" sigString sigInt)) :=
  claimC4_signature_mismatch envMismatch dMissing pkgT [.valueSpec 0] 0 reqIfcT
    ctDoString "I" "example.com/ifc" 0 [] [] ⟨"Do", sigInt⟩ sigString
    rfl rfl rfl rfl rfl rfl rfl (by simp) rfl (by decide)

/-! ### Theorems about the empty-missing-set control flow -/

mutual

/-- The concrete type provides every explicit method of the interface
tree with an identical signature, every node's defining file is
locatable, and every embedded interface's package resolves — the
hypotheses under which `missingMethods` returns an empty result. -/
def providesAll (ct : concreteType) : IfaceTree → Bool
  | .node _ pkgPath file embeds methods =>
    file.isSome
    && methods.all (fun m =>
         match ct.getMethodSelection m.name with
         | some s => decide (s = m.sig)
         | none => false)
    && providesEmbeds ct pkgPath embeds

/-- `providesAll` over an embedded-interface list. -/
def providesEmbeds (ct : concreteType) (parentPath : String) : EmbedList → Bool
  | .enil => true
  | .econs impOk t rest =>
    (impOk || t.pkgPathOf = parentPath) && providesAll ct t
      && providesEmbeds ct parentPath rest

end

/-- A method found by `getMethodSelection` refutes
`doesNotHaveMethod`. -/
theorem doesNotHave_false_of_selection (ct : concreteType) (n : String) (s : GoSig)
    (h : ct.getMethodSelection n = some s) : ct.doesNotHaveMethod n = false := by
  unfold concreteType.getMethodSelection at h
  unfold concreteType.doesNotHaveMethod
  cases htms : ct.tms n with
  | some s2 => simp [htms]
  | none =>
    rw [htms] at h
    have h2 : ct.pms n = some s := h
    simp [htms, h2]

/-- When every method is provided with an identical signature, the
explicit-method loop records nothing. -/
theorem missingOwn_provided (ct : concreteType) :
    ∀ (ms : List IfaceMethod) (v : List String),
    (ms.all (fun m =>
       match ct.getMethodSelection m.name with
       | some s => decide (s = m.sig)
       | none => false)) = true →
    missingOwn ct ms v = .ok ([], v) := by
  intro ms
  induction ms with
  | nil => intro v _; rfl
  | cons m rest ih =>
    intro v hall
    rw [List.all_cons, Bool.and_eq_true] at hall
    obtain ⟨hm, hrest⟩ := hall
    simp only [missingOwn]
    cases hsel : ct.getMethodSelection m.name with
    | some s =>
      simp only [hsel] at hm
      have hid : s = m.sig := by simpa using hm
      simp only [hsel]
      rw [if_pos hid]
      have hrec : recordStep ct m v = ([], v) := by
        unfold recordStep
        rw [doesNotHave_false_of_selection ct m.name s hsel]
        simp
      rw [hrec, ih v hrest]
      simp [hrec]
    | none =>
      simp only [hsel] at hm
      exact absurd hm (by decide)

mutual

/-- When the concrete type provides every method of the tree (and files
and imports resolve), `missingMethods` returns an empty result and an
unchanged visited set. -/
theorem missingMethods_provided (ct : concreteType) (t : IfaceTree) :
    ∀ v, providesAll ct t = true → missingMethods ct t v = .ok ([], v) := by
  cases t with
  | node nm pkgPath file embeds methods =>
    intro v hp
    have hpe := providesEmbeds_provided ct pkgPath embeds
    simp only [providesAll] at hp
    rw [Bool.and_eq_true, Bool.and_eq_true] at hp
    obtain ⟨⟨hfile, hmeth⟩, hembs⟩ := hp
    cases file with
    | none => simp at hfile
    | some fid =>
      rw [missingMethods_node]
      simp only [hpe v hembs]
      simp only [missingOwn_provided ct methods v hmeth]
      simp

/-- When every embedded interface is provided, the embedded loop returns
an empty result and an unchanged visited set. -/
theorem providesEmbeds_provided (ct : concreteType) (parentPath : String) (es : EmbedList) :
    ∀ v, providesEmbeds ct parentPath es = true →
    missingEmbeds ct parentPath es v = .ok ([], v) := by
  cases es with
  | enil => intro v _; rfl
  | econs impOk t rest =>
    intro v hp
    have ht := missingMethods_provided ct t
    have hr := providesEmbeds_provided ct parentPath rest
    simp only [providesEmbeds] at hp
    rw [Bool.and_eq_true, Bool.and_eq_true] at hp
    obtain ⟨⟨hok, hpt⟩, hprest⟩ := hp
    rw [missingEmbeds_econs]
    have hcond : (t.pkgPathOf ≠ parentPath && !impOk) = false := by
      cases impOk with
      | true => simp
      | false =>
        simp at hok
        simp [hok]
    rw [hcond]
    simp only [Bool.false_eq_true, if_false]
    simp only [ht v hpt]
    simp only [hr v hprest]
    simp

end

/-- C7: for every request in which the concrete type already provides
every method of the interface (so the computed missing set is empty),
the core produces no patch: `MethodStubActions` yields no code action
for the diagnostic, so running the core on a file that already contains
all the stubs changes nothing. -/
theorem claimC7_idempotence
    (env : StubEnv) (d : Diagnostic) (pkg : GoPackage)
    (nodes : List PathNode) (pos : Nat) (ir : stubRequest)
    (hd : (isMissingMethodErr d || isConversionErr d) = true)
    (hpf : env.parsedFile d = .ok pkg)
    (hn : env.nodesOf d = .ok (nodes, pos))
    (hir : getImplementRequest env.fromVS env.afterIndex nodes pos = some ir)
    (hcf : env.concreteFile ir = .ok ())
    (hprov : providesAll (env.ctOf ir) (env.ifaceOf ir) = true) :
    MethodStubActions env [d] = .ok [] := by
  have hmm2 := missingMethods_provided (env.ctOf ir) (env.ifaceOf ir) [] hprov
  unfold MethodStubActions msaLoop
  simp only [hd, Bool.not_true, Bool.false_eq_true, if_false, hpf, hn, hir, hcf, hmm2]
  simp

/-- A concrete type that already has `Do(int)` with a value receiver. -/
def ctDoInt : concreteType :=
  ⟨pkgT, [], fun n => if n = "Do" then some sigInt else none, fun _ => none, []⟩

/-- The environment of the empty-missing-set witnesses: the concrete
type already provides `I`'s only method. -/
def envProvided : StubEnv :=
  { parsedFile := fun _ => .ok pkgT
    nodesOf := fun _ => .ok ([.valueSpec 0], 0)
    fromVS := fun _ _ => some reqIfcT
    afterIndex := fun _ => .ok none
    concreteFile := fun _ => .ok ()
    ctOf := fun _ => ctDoInt
    ifaceOf := fun _ => treeDoInt
    buildEdits := fun _ _ => .ok () }

theorem claimC7_idempotence_witness :
    MethodStubActions envProvided [dMissing] = .ok [] :=
  claimC7_idempotence envProvided dMissing pkgT [.valueSpec 0] 0 reqIfcT
    rfl rfl rfl rfl rfl rfl

/-- C10: if any diagnostic in the input list passes the message-pattern
filter and yields an empty missing-method set, `MethodStubActions`
immediately returns an empty (nil) action slice and nil error at that
point of the loop, discarding code actions already accumulated for
earlier diagnostics in the same call rather than continuing the loop. -/
theorem claimC10_empty_missing_discards
    (env : StubEnv) (d : Diagnostic) (rest : List Diagnostic) (actions : List CodeAction)
    (pkg : GoPackage) (nodes : List PathNode) (pos : Nat) (ir : stubRequest) (v : List String)
    (hd : (isMissingMethodErr d || isConversionErr d) = true)
    (hpf : env.parsedFile d = .ok pkg)
    (hn : env.nodesOf d = .ok (nodes, pos))
    (hir : getImplementRequest env.fromVS env.afterIndex nodes pos = some ir)
    (hcf : env.concreteFile ir = .ok ())
    (hmm : missingMethods (env.ctOf ir) (env.ifaceOf ir) [] = .ok ([], v)) :
    msaLoop env (d :: rest) actions = .ok [] := by
  simp only [msaLoop]
  simp only [hd, Bool.not_true, Bool.false_eq_true, if_false, hpf, hn, hir, hcf, hmm]
  simp

/-- An action standing for work accumulated from an earlier diagnostic. -/
def actionEarlier : CodeAction := ⟨"Implement ifc.I", "quickfix", [dMissing]⟩

theorem claimC10_empty_missing_discards_witness :
    msaLoop envProvided [dMissing] [actionEarlier] = .ok [] :=
  claimC10_empty_missing_discards envProvided dMissing [] [actionEarlier] pkgT
    [.valueSpec 0] 0 reqIfcT [] rfl rfl rfl rfl rfl rfl
